import Mathlib

/-!
Verification development for the telnet console driver
(drivers/console/telnet_console.c): a shallow embedding of the line
ring buffer, the printk-hook producer, the drain logic, the timer
forced flush, the inbound chunk framer, and the session teardown,
together with theorems settling the specified properties.

Representation choices:
* A byte is a Nat (only equality comparisons and copies occur).
* A line slot (struct line_buf) is represented by the list of its
  first len bytes; len is the list length.  The C code only ever
  writes at index len (append) and index len−1 (overwrite of the
  last byte), so the bytes beyond len are never observable.
* Compile-time configuration constants (TELNET_LINES,
  TELNET_LINE_SIZE, TELNET_THRESHOLD, CONSOLE_MAX_LINE_LEN) are
  parameters N, SIZE, THRESHOLD, MAXLEN of the definitions.
* External kernel effects (k_timer_start, k_sem_give, k_yield,
  net_context_send) do not change the ring state; where an effect is
  observable for a claim (bytes handed to the sender, a released
  buffer) the function returns it explicitly.
-/

/-- Byte value of a line feed. -/
def LF : Nat := 10

/-- Byte value of a carriage return. -/
def CR : Nat := 13

/-- TELNET_MIN_MSG from the source. -/
def TELNET_MIN_MSG : Nat := 2

/-- Ring of line slots (struct line_buf_rb).  A slot is the list of its
first len bytes; l_bufs has length N (the TELNET_LINES configuration). -/
structure line_buf_rb where
  l_bufs : List (List Nat)
  line_in : Nat
  line_out : Nat
deriving DecidableEq, Repr

/-- telnet_rb_init: both indices zero, every slot length zero. -/
def telnet_rb_init (N : Nat) : line_buf_rb :=
  { l_bufs := List.replicate N [], line_in := 0, line_out := 0 }

/-- telnet_rb_switch: advance line_in (wrapping at N), reset the new
slot length, and if line_in catches line_out, advance line_out too
(wrapping at N).  The k_timer_start and k_sem_give calls are external
effects with no ring state. -/
def telnet_rb_switch (N : Nat) (rb : line_buf_rb) : line_buf_rb :=
  let li1 := rb.line_in + 1
  let li2 := if li1 = N then 0 else li1
  let bufs := rb.l_bufs.set li2 []
  let lo :=
    if li2 = rb.line_out then
      let lo1 := rb.line_out + 1
      if lo1 = N then 0 else lo1
    else rb.line_out
  { l_bufs := bufs, line_in := li2, line_out := lo }

/-- telnet_rb_get_line_out: remember the current line_out, advance
line_out (wrapping at N), then return the remembered slot index when
that slot has nonzero length and none otherwise.  The returned index
plays the role of the returned struct line_buf pointer. -/
def telnet_rb_get_line_out (N : Nat) (rb : line_buf_rb) :
    Option Nat × line_buf_rb :=
  let out := rb.line_out
  let lo1 := rb.line_out + 1
  let lo2 := if lo1 = N then 0 else lo1
  let rb2 : line_buf_rb := { rb with line_out := lo2 }
  if rb2.l_bufs.getD out [] = [] then (none, rb2) else (some out, rb2)

/-- telnet_rb_get_line_in: the current write slot. -/
def telnet_rb_get_line_in (rb : line_buf_rb) : List Nat :=
  rb.l_bufs.getD rb.line_in []

/-- telnet_console_out: the printk hook.  Appends the byte to the
current write slot; if the byte is a line feed or the new length is
SIZE − 1, the last byte is overwritten with CR, an LF is appended,
and the ring is switched.  Returns the new ring and whether a switch
happened (the yield flag in the source). -/
def telnet_console_out (N SIZE : Nat) (rb : line_buf_rb) (c : Nat) :
    line_buf_rb × Bool :=
  let lb := telnet_rb_get_line_in rb
  let lb1 := lb ++ [c]
  if c = LF ∨ lb1.length = SIZE - 1 then
    let lb2 := lb1.dropLast ++ [CR]
    let lb3 := lb2 ++ [LF]
    (telnet_rb_switch N { rb with l_bufs := rb.l_bufs.set rb.line_in lb3 },
     true)
  else
    ({ rb with l_bufs := rb.l_bufs.set rb.line_in lb1 }, false)

/-- telnet_send_prematurely: the timer handler.  If the current write
slot has accumulated at least THRESHOLD bytes the ring is switched;
no terminator is appended. -/
def telnet_send_prematurely (N THRESHOLD : Nat) (rb : line_buf_rb) :
    line_buf_rb :=
  let lb := telnet_rb_get_line_in rb
  if THRESHOLD ≤ lb.length then telnet_rb_switch N rb else rb

/-- telnet_send: take the next readable slot; when one is available its
bytes are appended to the outbound buffer and handed to the transport,
and the slot length is reset to zero.  The first component is the byte
sequence handed to the sender (none when no readable slot). -/
def telnet_send (N : Nat) (rb : line_buf_rb) :
    Option (List Nat) × line_buf_rb :=
  match telnet_rb_get_line_out N rb with
  | (none, rb2) => (none, rb2)
  | (some i, rb2) =>
      (some (rb2.l_bufs.getD i []),
       { rb2 with l_bufs := rb2.l_bufs.set i [] })

/-- Feeding a byte sequence one character at a time through the
producer entry point telnet_console_out. -/
def telnet_console_out_seq (N SIZE : Nat) (rb : line_buf_rb)
    (cs : List Nat) : line_buf_rb :=
  cs.foldl (fun rb c => (telnet_console_out N SIZE rb c).1) rb

/-- The sender task loop of telnet_run: repeatedly flush readable slots
via telnet_send until none is readable (fuel-bounded), collecting the
byte sequences handed to the transport, in order. -/
def telnet_drain (N : Nat) : Nat → line_buf_rb → List (List Nat) × line_buf_rb
  | 0, rb => ([], rb)
  | fuel + 1, rb =>
      match telnet_send N rb with
      | (none, rb2) => ([], rb2)
      | (some l, rb2) =>
          let r := telnet_drain N fuel rb2
          (l :: r.1, r.2)

/-- telnet_handle_input: the inbound chunk framer.  MAXLEN is
CONSOLE_MAX_LINE_LEN; registered models the avail and input queues
being set; avail models k_fifo_get on the free pool succeeding.
Returns the enqueued line (none when the chunk is dropped) and whether
a buffer was taken from the free pool.  No error is surfaced on any
path (the C function returns void). -/
def telnet_handle_input (MAXLEN : Nat) (registered avail : Bool)
    (chunk : List Nat) : Option (List Nat) × Bool :=
  let len := chunk.length
  if MAXLEN < len ∨ len < TELNET_MIN_MSG then (none, false)
  else if chunk.getD 0 0 = 255 then (none, false)
  else if ¬registered then (none, false)
  else if ¬avail then (none, false)
  else
    let line := chunk
    let line2 :=
      if line.getD (len - 1) 0 ≠ 0 then
        let la := if line.getD (len - 1) 0 = LF then line.set (len - 1) 0
                  else line
        let lb := if la.getD (len - 2) 0 = CR then la.set (len - 2) 0
                  else la
        lb
      else line
    (some line2, true)

/-- The terminator normalization block of telnet_handle_input in
isolation: when the last byte is not NUL, clear a trailing LF, and
clear the byte before the last when it is a CR. -/
def framer_normalize (chunk : List Nat) : List Nat :=
  let len := chunk.length
  if chunk.getD (len - 1) 0 ≠ 0 then
    let la := if chunk.getD (len - 1) 0 = LF then chunk.set (len - 1) 0
              else chunk
    let lb := if la.getD (len - 2) 0 = CR then la.set (len - 2) 0
              else la
    lb
  else chunk

/-- Session-level globals of the driver: the ring, the installed
process-wide printk hook, the saved previous hook, the client context,
the outbound buffer, and whether the send timer is running.  Hook,
context and buffer references are abstract Nat identities. -/
structure telnet_state where
  rb : line_buf_rb
  printk_hook : Option Nat
  orig_printk_hook : Option Nat
  client_cnx : Option Nat
  out_buf : Option Nat
  timer_running : Bool
deriving DecidableEq, Repr

/-- telnet_end_client_connection: reinstall the saved hook and clear
the saved value, stop the timer, put the client context and clear it,
unref the outbound buffer when present (returned as the second
component; the out_buf variable itself is not cleared by the source),
and reinitialize the ring. -/
def telnet_end_client_connection (N : Nat) (s : telnet_state) :
    telnet_state × Option Nat :=
  ({ rb := telnet_rb_init N,
     printk_hook := s.orig_printk_hook,
     orig_printk_hook := none,
     client_cnx := none,
     out_buf := s.out_buf,
     timer_running := false },
   s.out_buf)

/-- A concrete pre-teardown session state: hook 1 installed, hook 0
saved, client context 3, outbound buffer 7, timer running. -/
def c8_state : telnet_state :=
  { rb := telnet_rb_init 4, printk_hook := some 1, orig_printk_hook := some 0,
    client_cnx := some 3, out_buf := some 7, timer_running := true }

/-- Ring operations of the driver, for invariant statements. -/
inductive telnet_op where
  | reset : telnet_op
  | rbSwitch : telnet_op
  | getLineOut : telnet_op
  | consoleOut : Nat → telnet_op
  | timerFire : Nat → telnet_op
  | send : telnet_op

/-- Apply one driver operation to the ring. -/
def telnet_apply (N SIZE : Nat) : telnet_op → line_buf_rb → line_buf_rb
  | .reset, _ => telnet_rb_init N
  | .rbSwitch, rb => telnet_rb_switch N rb
  | .getLineOut, rb => (telnet_rb_get_line_out N rb).2
  | .consoleOut c, rb => (telnet_console_out N SIZE rb c).1
  | .timerFire t, rb => telnet_send_prematurely N t rb
  | .send, rb => (telnet_send N rb).2

/-- Index invariant of the ring: both indices below N and the slot
array has the configured length. -/
def rbInv (N : Nat) (rb : line_buf_rb) : Prop :=
  rb.line_in < N ∧ rb.line_out < N ∧ rb.l_bufs.length = N

/-- Number of readable slots: nonzero length and not the current write
target (the definition of readable in the data model). -/
def readableCount (N : Nat) (rb : line_buf_rb) : Nat :=
  ((List.range N).filter
    (fun i => decide (rb.l_bufs.getD i [] ≠ [] ∧ i ≠ rb.line_in))).length

/-- A completed line as the producer stores it: the data bytes followed
by the CR LF pair. -/
def crlfLine (l : List Nat) : List Nat := l ++ [CR, LF]

/-- Replace every LF byte by the CR LF pair. -/
def lfToCrlf : List Nat → List Nat
  | [] => []
  | c :: cs => (if c = LF then [CR, LF] else [c]) ++ lfToCrlf cs

/-- Remove a trailing CR LF pair when present (stripping the forced
terminator insertion from a flushed fragment). -/
def stripCrlf (l : List Nat) : List Nat :=
  if l.reverse.take 2 = [LF, CR] then l.dropLast.dropLast else l

/-- Feed a list of lines, each terminated by an LF byte, through the
producer entry point starting from a fresh ring. -/
def feedLines (N SIZE : Nat) (ls : List (List Nat)) : line_buf_rb :=
  telnet_console_out_seq N SIZE (telnet_rb_init N)
    ((ls.map (fun l => l ++ [LF])).flatten)

/-- A line short enough for the producer to store it without hitting
the capacity boundary switch: room for the data plus the CR LF pair. -/
def lineValid (SIZE : Nat) (l : List Nat) : Prop :=
  LF ∉ l ∧ l.length + 2 ≤ SIZE

/-- Shape of the ring after the producer has completed the lines of
done, in order, from a fresh ring and without wrapping: the write
index sits after the completed lines, the read index is still zero,
and slot j holds the j-th completed line with its CR LF terminator. -/
def rbShape (N : Nat) (done : List (List Nat)) (rb : line_buf_rb) : Prop :=
  rb.line_in = done.length ∧ rb.line_out = 0 ∧ rb.l_bufs.length = N ∧
  ∀ j, rb.l_bufs.getD j []
        = if j < done.length then crlfLine (done.getD j []) else []

/-! Helper lemmas about getD and set. -/

/-- Reading an index just set returns the new value. -/
theorem getD_set_eq {α : Type} (l : List α) (i : Nat) (x d : α)
    (h : i < l.length) : (l.set i x).getD i d = x := by
  rw [List.getD_eq_getElem?_getD, List.getElem?_set_self h]
  rfl

/-- Reading another index after a set is unchanged. -/
theorem getD_set_ne {α : Type} (l : List α) (i j : Nat) (x d : α)
    (h : i ≠ j) : (l.set i x).getD j d = l.getD j d := by
  rw [List.getD_eq_getElem?_getD, List.getElem?_set_ne h,
    ← List.getD_eq_getElem?_getD]

/-- Reading past the end gives the default. -/
theorem getD_ge {α : Type} (l : List α) (i : Nat) (d : α)
    (h : l.length ≤ i) : l.getD i d = d := by
  rw [List.getD_eq_getElem?_getD, List.getElem?_eq_none h]
  rfl

/-- Reading inside the left part of an append. -/
theorem getD_append_lt {α : Type} (l1 l2 : List α) (i : Nat) (d : α)
    (h : i < l1.length) : (l1 ++ l2).getD i d = l1.getD i d := by
  rw [List.getD_eq_getElem?_getD, List.getElem?_append_left h,
    ← List.getD_eq_getElem?_getD]

/-- Reading inside the right part of an append. -/
theorem getD_append_ge {α : Type} (l1 l2 : List α) (i : Nat) (d : α)
    (h : l1.length ≤ i) :
    (l1 ++ l2).getD i d = l2.getD (i - l1.length) d := by
  rw [List.getD_eq_getElem?_getD, List.getElem?_append_right h,
    ← List.getD_eq_getElem?_getD]

/-- Every slot of a freshly replicated ring is empty. -/
theorem getD_replicate_nil (n i : Nat) :
    ((List.replicate n ([] : List Nat)).getD i []) = [] := by
  rw [List.getD_eq_getElem?_getD, List.getElem?_replicate]
  split <;> rfl

/-- Setting an index to the value it already holds is the identity. -/
theorem set_getD_self {α : Type} (l : List α) (i : Nat) (d : α)
    (h : i < l.length) : l.set i (l.getD i d) = l := by
  apply List.ext_getElem?
  intro n
  by_cases hn : i = n
  · subst hn
    rw [List.getElem?_set_self h, List.getD_eq_getElem?_getD,
      List.getElem?_eq_getElem h]
    rfl
  · exact List.getElem?_set_ne hn

/-! Characterization lemmas for the embedded operations. -/

/-- The state part of telnet_rb_get_line_out always advances line_out
by one, wrapping at N, and changes nothing else. -/
theorem get_line_out_state (N : Nat) (rb : line_buf_rb) :
    (telnet_rb_get_line_out N rb).2 =
      { rb with line_out := if rb.line_out + 1 = N then 0
                            else rb.line_out + 1 } := by
  simp only [telnet_rb_get_line_out]
  split <;> rfl

/-- The value part of telnet_rb_get_line_out: the old line_out slot
when it is nonempty, none otherwise. -/
theorem get_line_out_value (N : Nat) (rb : line_buf_rb) :
    (telnet_rb_get_line_out N rb).1 =
      if rb.l_bufs.getD rb.line_out [] = [] then none
      else some rb.line_out := by
  unfold telnet_rb_get_line_out
  split <;> simp_all

/-- telnet_rb_switch when the incremented write index neither wraps
nor collides with the read index. -/
theorem switch_no_wrap (N : Nat) (rb : line_buf_rb)
    (h1 : rb.line_in + 1 ≠ N) (h2 : rb.line_in + 1 ≠ rb.line_out) :
    telnet_rb_switch N rb =
      { rb with line_in := rb.line_in + 1,
                l_bufs := rb.l_bufs.set (rb.line_in + 1) [] } := by
  unfold telnet_rb_switch
  simp only [if_neg h1, if_neg h2]

/-- telnet_rb_switch when the incremented write index does not wrap
but collides with the read index, which then advances without
wrapping. -/
theorem switch_no_wrap_overwrite (N : Nat) (rb : line_buf_rb)
    (h1 : rb.line_in + 1 ≠ N) (h2 : rb.line_in + 1 = rb.line_out)
    (h3 : rb.line_out + 1 ≠ N) :
    telnet_rb_switch N rb =
      { rb with line_in := rb.line_in + 1,
                line_out := rb.line_out + 1,
                l_bufs := rb.l_bufs.set (rb.line_in + 1) [] } := by
  unfold telnet_rb_switch
  simp only [if_neg h1, if_pos h2, if_neg h3]

/-- telnet_rb_switch when the incremented write index wraps to zero
and collides with a read index of zero, which then advances to one. -/
theorem switch_wrap_overwrite (N : Nat) (rb : line_buf_rb)
    (h1 : rb.line_in + 1 = N) (h2 : rb.line_out = 0) (h3 : (1 : Nat) ≠ N) :
    telnet_rb_switch N rb =
      { rb with line_in := 0, line_out := 1,
                l_bufs := rb.l_bufs.set 0 [] } := by
  unfold telnet_rb_switch
  simp [h1, h2, h3]

/-- The slot array produced by telnet_rb_switch: the slot at the new
write index is cleared. -/
theorem switch_l_bufs (N : Nat) (rb : line_buf_rb) :
    (telnet_rb_switch N rb).l_bufs
      = rb.l_bufs.set (if rb.line_in + 1 = N then 0 else rb.line_in + 1)
          [] := rfl

/-- The write index produced by telnet_rb_switch. -/
theorem switch_line_in (N : Nat) (rb : line_buf_rb) :
    (telnet_rb_switch N rb).line_in
      = if rb.line_in + 1 = N then 0 else rb.line_in + 1 := rfl

/-- telnet_rb_switch preserves the index invariant. -/
theorem switch_inv (N : Nat) (rb : line_buf_rb) (h : rbInv N rb) :
    rbInv N (telnet_rb_switch N rb) := by
  obtain ⟨h1, h2, h3⟩ := h
  refine ⟨?_, ?_, ?_⟩
  · show (if rb.line_in + 1 = N then 0 else rb.line_in + 1) < N
    split_ifs <;> omega
  · show (if (if rb.line_in + 1 = N then 0 else rb.line_in + 1) = rb.line_out
          then if rb.line_out + 1 = N then 0 else rb.line_out + 1
          else rb.line_out) < N
    split_ifs <;> omega
  · show (rb.l_bufs.set _ []).length = N
    rw [List.length_set]
    exact h3

/-- telnet_rb_get_line_out preserves the index invariant. -/
theorem get_line_out_inv (N : Nat) (rb : line_buf_rb) (h : rbInv N rb) :
    rbInv N (telnet_rb_get_line_out N rb).2 := by
  obtain ⟨h1, h2, h3⟩ := h
  rw [get_line_out_state]
  refine ⟨h1, ?_, h3⟩
  show (if rb.line_out + 1 = N then 0 else rb.line_out + 1) < N
  split_ifs <;> omega

/-- telnet_console_out preserves the index invariant. -/
theorem console_out_inv (N SIZE : Nat) (rb : line_buf_rb) (c : Nat)
    (h : rbInv N rb) : rbInv N (telnet_console_out N SIZE rb c).1 := by
  obtain ⟨h1, h2, h3⟩ := h
  simp only [telnet_console_out]
  split
  · exact switch_inv N _ ⟨h1, h2, by rw [List.length_set]; exact h3⟩
  · exact ⟨h1, h2, by rw [List.length_set]; exact h3⟩

/-- telnet_send_prematurely preserves the index invariant. -/
theorem premature_inv (N THRESHOLD : Nat) (rb : line_buf_rb)
    (h : rbInv N rb) : rbInv N (telnet_send_prematurely N THRESHOLD rb) := by
  simp only [telnet_send_prematurely]
  split
  · exact switch_inv N rb h
  · exact h

/-- telnet_send preserves the index invariant. -/
theorem send_inv (N : Nat) (rb : line_buf_rb) (h : rbInv N rb) :
    rbInv N (telnet_send N rb).2 := by
  have hinv2 : rbInv N (telnet_rb_get_line_out N rb).2 :=
    get_line_out_inv N rb h
  unfold telnet_send
  rcases hgo : telnet_rb_get_line_out N rb with ⟨r, rb2⟩
  rw [hgo] at hinv2
  cases r with
  | none => exact hinv2
  | some i =>
      obtain ⟨g1, g2, g3⟩ := hinv2
      exact ⟨g1, g2, by rw [List.length_set]; exact g3⟩

/-- The readable-slot count never exceeds the number of slots. -/
theorem readableCount_le (N : Nat) (rb : line_buf_rb) :
    readableCount N rb ≤ N := by
  calc readableCount N rb ≤ (List.range N).length :=
        List.length_filter_le _ _
    _ = N := List.length_range N

/-- An accepted chunk (valid length, no leading IAC byte, queues
registered, free buffer available) is normalized and queued, taking a
buffer from the pool. -/
theorem handle_input_accept (MAXLEN : Nat) (chunk : List Nat)
    (hmin : TELNET_MIN_MSG ≤ chunk.length) (hmax : chunk.length ≤ MAXLEN)
    (hiac : chunk.getD 0 0 ≠ 255) :
    telnet_handle_input MAXLEN true true chunk
      = (some (framer_normalize chunk), true) := by
  have hcond : ¬ (MAXLEN < chunk.length ∨ chunk.length < TELNET_MIN_MSG) := by
    push_neg
    exact ⟨hmax, hmin⟩
  simp only [telnet_handle_input, framer_normalize]
  rw [if_neg hcond, if_neg hiac, if_neg (by simp), if_neg (by simp)]

/-- Claim C3 (amended): telnet_rb_get_line_out advances the read index
by one slot (wrapping at N) unconditionally, leaves the write index
and the slots unchanged, and returns the slot at the old read index
when that slot has nonzero length and none otherwise. -/
theorem C3_amended (N : Nat) (rb : line_buf_rb) :
    ((telnet_rb_get_line_out N rb).2.line_out
        = if rb.line_out + 1 = N then 0 else rb.line_out + 1) ∧
    (telnet_rb_get_line_out N rb).2.line_in = rb.line_in ∧
    (telnet_rb_get_line_out N rb).2.l_bufs = rb.l_bufs ∧
    ((telnet_rb_get_line_out N rb).1
        = if rb.l_bufs.getD rb.line_out [] = [] then none
          else some rb.line_out) := by
  have hs := get_line_out_state N rb
  exact ⟨by rw [hs], by rw [hs], by rw [hs], get_line_out_value N rb⟩

/-- Claim C3 counterexample: on a freshly initialized ring the slot at
the read index is empty, so the operation returns none, yet the read
index advances from 0 to 1 instead of being left unchanged. -/
theorem C3_counterexample :
    (telnet_rb_get_line_out 4 (telnet_rb_init 4)).1 = none ∧
    (telnet_rb_get_line_out 4 (telnet_rb_init 4)).2.line_out
      ≠ (telnet_rb_init 4).line_out := by
  decide

/-- Claim C7: a chunk shorter than TELNET_MIN_MSG, longer than the
maximum line length, or whose first byte is the interpret-as-command
value 255 is discarded silently: nothing is queued and no buffer is
taken from the free pool, whatever the queue registration and free
pool state (the C function returns void, so no error can be
surfaced). -/
theorem C7_theorem (MAXLEN : Nat) (registered avail : Bool)
    (chunk : List Nat)
    (h : chunk.length < TELNET_MIN_MSG ∨ MAXLEN < chunk.length ∨
         chunk.getD 0 0 = 255) :
    telnet_handle_input MAXLEN registered avail chunk = (none, false) := by
  simp only [telnet_handle_input]
  rcases h with h | h | h
  · rw [if_pos (Or.inr h)]
  · rw [if_pos (Or.inl h)]
  · by_cases h2 : MAXLEN < chunk.length ∨ chunk.length < TELNET_MIN_MSG
    · rw [if_pos h2]
    · rw [if_neg h2, if_pos h]

/-- Claim C7 witness: the command chunk 255 65 66 is dropped with no
buffer taken. -/
theorem C7_witness :
    (([255, 65, 66] : List Nat).length < TELNET_MIN_MSG ∨
       64 < ([255, 65, 66] : List Nat).length ∨
       ([255, 65, 66] : List Nat).getD 0 0 = 255) ∧
    telnet_handle_input 64 true true [255, 65, 66] = (none, false) :=
  ⟨by decide, C7_theorem 64 true true [255, 65, 66] (by decide)⟩

/-- Claim C10: when an accepted, non-command chunk ends in the NUL
byte, telnet_handle_input performs no terminator normalization and
queues the line exactly as copied from the chunk. -/
theorem C10_theorem (MAXLEN : Nat) (chunk : List Nat)
    (hmin : TELNET_MIN_MSG ≤ chunk.length) (hmax : chunk.length ≤ MAXLEN)
    (hiac : chunk.getD 0 0 ≠ 255)
    (hnul : chunk.getD (chunk.length - 1) 0 = 0) :
    telnet_handle_input MAXLEN true true chunk = (some chunk, true) := by
  rw [handle_input_accept MAXLEN chunk hmin hmax hiac]
  simp only [framer_normalize]
  rw [if_neg (not_not_intro hnul)]

/-- Claim C10 witness: the chunk 104 13 10 0 ends in NUL, so the CR LF
pair inside it survives and the line is queued verbatim. -/
theorem C10_witness :
    (TELNET_MIN_MSG ≤ ([104, 13, 10, 0] : List Nat).length) ∧
    (([104, 13, 10, 0] : List Nat).length ≤ 64) ∧
    (([104, 13, 10, 0] : List Nat).getD 0 0 ≠ 255) ∧
    (([104, 13, 10, 0] : List Nat).getD (([104, 13, 10, 0] : List Nat).length - 1) 0 = 0) ∧
    telnet_handle_input 64 true true [104, 13, 10, 0]
      = (some [104, 13, 10, 0], true) :=
  ⟨by decide, by decide, by decide, by decide,
   C10_theorem 64 [104, 13, 10, 0] (by decide) (by decide) (by decide)
     (by decide)⟩

/-- Claim C8 (amended): teardown reinstalls the saved output sink and
clears the saved value, stops the timer, releases the held outbound
buffer, clears the client reference, and resets the ring to
writeIndex = readIndex = 0 with every slot length zero; the out_buf
variable, however, keeps its old value, so a reference to the
released buffer survives the teardown. -/
theorem C8_amended (N : Nat) (s : telnet_state) :
    (telnet_end_client_connection N s).1.printk_hook = s.orig_printk_hook ∧
    (telnet_end_client_connection N s).1.orig_printk_hook = none ∧
    (telnet_end_client_connection N s).1.timer_running = false ∧
    (telnet_end_client_connection N s).1.client_cnx = none ∧
    (telnet_end_client_connection N s).2 = s.out_buf ∧
    (telnet_end_client_connection N s).1.rb.line_in = 0 ∧
    (telnet_end_client_connection N s).1.rb.line_out = 0 ∧
    (∀ j, (telnet_end_client_connection N s).1.rb.l_bufs.getD j [] = []) ∧
    (telnet_end_client_connection N s).1.out_buf = s.out_buf := by
  refine ⟨rfl, rfl, rfl, rfl, rfl, rfl, rfl, ?_, rfl⟩
  intro j
  exact getD_replicate_nil N j

/-- Claim C8 counterexample: tearing down a session that holds
outbound buffer 7 releases that buffer yet leaves the out_buf
variable pointing at it, so the core does retain a stale reference to
session state after the transition. -/
theorem C8_counterexample :
    (telnet_end_client_connection 4 c8_state).2 = some 7 ∧
    (telnet_end_client_connection 4 c8_state).1.out_buf = some 7 ∧
    (telnet_end_client_connection 4 c8_state).1.out_buf ≠ none := by
  decide

/-- Claim C2 (amended): with per-slot capacity 8, feeding the bytes of
abcdefghij followed by LF forces a slot switch at the capacity
boundary before the newline; the two flushed fragments are
abcdef CR LF and hij CR LF, and their concatenation stripped of the
inserted CR LF terminators is abcdefhij: the byte g written at the
boundary is overwritten by the forced carriage return and lost. -/
theorem C2_amended :
    (telnet_drain 4 4 (telnet_console_out_seq 4 8 (telnet_rb_init 4)
        [97, 98, 99, 100, 101, 102, 103, 104, 105, 106, 10])).1
      = [[97, 98, 99, 100, 101, 102, 13, 10], [104, 105, 106, 13, 10]] ∧
    ((telnet_drain 4 4 (telnet_console_out_seq 4 8 (telnet_rb_init 4)
        [97, 98, 99, 100, 101, 102, 103, 104, 105, 106, 10])).1.map
          stripCrlf).flatten
      = [97, 98, 99, 100, 101, 102, 104, 105, 106] := by
  decide

/-- Claim C2 counterexample: the flushed fragments for abcdefghij LF at
capacity 8, concatenated and stripped of the inserted terminators, do
not reproduce abcdefghij — the boundary byte g is lost. -/
theorem C2_counterexample :
    ((telnet_drain 4 4 (telnet_console_out_seq 4 8 (telnet_rb_init 4)
        [97, 98, 99, 100, 101, 102, 103, 104, 105, 106, 10])).1.map
          stripCrlf).flatten
      ≠ [97, 98, 99, 100, 101, 102, 103, 104, 105, 106] := by
  decide

/-- Claim C5 (amended): every line completed by the producer entry
point itself — whether because the byte was a line feed or because the
slot reached the capacity boundary — ends with the CR LF pair; the
timer-forced switch of telnet_send_prematurely, by contrast, hands the
accumulated bytes to the sender without appending any terminator. -/
theorem C5_amended (N SIZE : Nat) (rb : line_buf_rb) (c : Nat)
    (hN : 2 ≤ N) (hlen : rb.l_bufs.length = N) (hin : rb.line_in < N)
    (hsw : (telnet_console_out N SIZE rb c).2 = true) :
    ∃ p, (telnet_console_out N SIZE rb c).1.l_bufs.getD rb.line_in []
           = p ++ [CR, LF] := by
  by_cases hc : c = LF ∨ (telnet_rb_get_line_in rb ++ [c]).length = SIZE - 1
  · refine ⟨(telnet_rb_get_line_in rb ++ [c]).dropLast, ?_⟩
    have hne : (if rb.line_in + 1 = N then 0 else rb.line_in + 1)
        ≠ rb.line_in := by
      split_ifs <;> omega
    have hlt : rb.line_in < rb.l_bufs.length := by omega
    simp only [telnet_console_out]
    rw [if_pos hc, switch_l_bufs]
    dsimp only
    rw [getD_set_ne _ _ _ _ _ hne, getD_set_eq _ _ _ _ hlt]
    simp [List.append_assoc]
  · exfalso
    simp only [telnet_console_out] at hsw
    rw [if_neg hc] at hsw
    exact Bool.false_ne_true hsw

/-- Claim C5 witness: feeding LF to a fresh ring completes a line, and
the completed slot is the bare CR LF pair. -/
theorem C5_witness :
    (2 ≤ 4) ∧ ((telnet_rb_init 4).l_bufs.length = 4) ∧
    ((telnet_rb_init 4).line_in < 4) ∧
    ((telnet_console_out 4 8 (telnet_rb_init 4) 10).2 = true) ∧
    ∃ p, (telnet_console_out 4 8 (telnet_rb_init 4) 10).1.l_bufs.getD
           (telnet_rb_init 4).line_in [] = p ++ [CR, LF] :=
  ⟨by decide, by decide, by decide, by decide,
   C5_amended 4 8 (telnet_rb_init 4) 10 (by decide) (by decide) (by decide)
     (by decide)⟩

/-- Claim C5 counterexample: a partial line of two bytes 97 98 meeting
a threshold of 2 is forcibly switched by the timer handler and handed
to the sender as exactly 97 98, which does not terminate with the
CR LF pair. -/
theorem C5_counterexample :
    (telnet_send 4 (telnet_send_prematurely 4 2
        (telnet_console_out_seq 4 8 (telnet_rb_init 4) [97, 98]))).1
      = some [97, 98] ∧
    ¬ ∃ p, ([97, 98] : List Nat) = p ++ [CR, LF] := by
  constructor
  · decide
  · rintro ⟨p, hp⟩
    have hp0 : p = [] := by
      have hl := congrArg List.length hp
      simp only [List.length_append, List.length_cons, List.length_nil] at hl
      exact List.length_eq_zero.mp (by omega)
    subst hp0
    exact absurd hp (by decide)

/-- Claim C9: a freshly initialized ring satisfies the index invariant
(both indices in the interval from 0 up to but excluding N, slot array
of length N); every driver operation — reset, switch, take-readable,
producer append, timer-forced switch, drain step — preserves it; and
in every state the number of readable slots is at most N. -/
theorem C9_theorem (N SIZE : Nat) (hN : 0 < N) :
    (rbInv N (telnet_rb_init N) ∧
     ∀ op rb, rbInv N rb → rbInv N (telnet_apply N SIZE op rb)) ∧
    ∀ rb, readableCount N rb ≤ N := by
  refine ⟨⟨⟨hN, hN, List.length_replicate N []⟩, ?_⟩,
    fun rb => readableCount_le N rb⟩
  intro op rb h
  cases op with
  | reset => exact ⟨hN, hN, List.length_replicate N []⟩
  | rbSwitch => exact switch_inv N rb h
  | getLineOut => exact get_line_out_inv N rb h
  | consoleOut c => exact console_out_inv N SIZE rb c h
  | timerFire t => exact premature_inv N t rb h
  | send => exact send_inv N rb h

/-- Claim C9 witness: the invariant statement instantiated at four
slots of capacity eight. -/
theorem C9_witness :
    (0 < 4) ∧
    ((rbInv 4 (telnet_rb_init 4) ∧
      ∀ op rb, rbInv 4 rb → rbInv 4 (telnet_apply 4 8 op rb)) ∧
     ∀ rb, readableCount 4 rb ≤ 4) :=
  ⟨by decide, C9_theorem 4 8 (by decide)⟩

/-- Claim C6 (amended): for an accepted, non-command chunk whose last
byte is not NUL and with a free buffer available, the framer queues a
line of the same length in which the last byte is cleared exactly when
it was a line feed, and the byte before the last is cleared exactly
when it was a carriage return — independently of whether the last byte
was a line feed; all earlier bytes are copied unchanged.  In
particular the chunk 104 105 13 10 yields the line 104 105 0 0, which
read as a NUL-terminated string is hi. -/
theorem C6_amended (MAXLEN : Nat) (chunk : List Nat)
    (hmin : TELNET_MIN_MSG ≤ chunk.length) (hmax : chunk.length ≤ MAXLEN)
    (hiac : chunk.getD 0 0 ≠ 255)
    (hlast : chunk.getD (chunk.length - 1) 0 ≠ 0) :
    (∃ m, telnet_handle_input MAXLEN true true chunk = (some m, true) ∧
       m.length = chunk.length ∧
       (∀ i, i < chunk.length - 2 → m.getD i 0 = chunk.getD i 0) ∧
       m.getD (chunk.length - 1) 0
         = (if chunk.getD (chunk.length - 1) 0 = LF then 0
            else chunk.getD (chunk.length - 1) 0) ∧
       m.getD (chunk.length - 2) 0
         = (if chunk.getD (chunk.length - 2) 0 = CR then 0
            else chunk.getD (chunk.length - 2) 0)) ∧
    ((telnet_handle_input 64 true true [104, 105, 13, 10]).1
        = some [104, 105, 0, 0] ∧
     ([104, 105, 0, 0] : List Nat).takeWhile (fun b => b != 0)
        = [104, 105]) := by
  refine ⟨?_, by decide, by decide⟩
  have h2 : 2 ≤ chunk.length := hmin
  have hk12 : chunk.length - 1 ≠ chunk.length - 2 := by omega
  have hk1lt : chunk.length - 1 < chunk.length := by omega
  have hk2lt : chunk.length - 2 < chunk.length := by omega
  have hm0 : framer_normalize chunk
      = (if (if chunk.getD (chunk.length - 1) 0 = LF
             then chunk.set (chunk.length - 1) 0 else chunk).getD
               (chunk.length - 2) 0 = CR
         then (if chunk.getD (chunk.length - 1) 0 = LF
               then chunk.set (chunk.length - 1) 0 else chunk).set
                 (chunk.length - 2) 0
         else (if chunk.getD (chunk.length - 1) 0 = LF
               then chunk.set (chunk.length - 1) 0 else chunk)) := by
    simp only [framer_normalize]
    rw [if_pos hlast]
  set la := if chunk.getD (chunk.length - 1) 0 = LF
            then chunk.set (chunk.length - 1) 0 else chunk with hla
  have hlalen : la.length = chunk.length := by
    rw [hla]
    split_ifs <;> simp [List.length_set]
  have hla2 : la.getD (chunk.length - 2) 0
      = chunk.getD (chunk.length - 2) 0 := by
    rw [hla]
    split_ifs with h
    · exact getD_set_ne _ _ _ _ _ hk12
    · rfl
  have hla1 : la.getD (chunk.length - 1) 0
      = (if chunk.getD (chunk.length - 1) 0 = LF then 0
         else chunk.getD (chunk.length - 1) 0) := by
    rw [hla]
    split_ifs with h
    · exact getD_set_eq _ _ _ _ hk1lt
    · rfl
  have hlai : ∀ i, i < chunk.length - 2 → la.getD i 0 = chunk.getD i 0 := by
    intro i hi
    rw [hla]
    split_ifs with h
    · exact getD_set_ne _ _ _ _ _ (by omega)
    · rfl
  refine ⟨framer_normalize chunk,
    handle_input_accept MAXLEN chunk hmin hmax hiac, ?_, ?_, ?_, ?_⟩
  · rw [hm0]
    split_ifs with h
    · rw [List.length_set]
      exact hlalen
    · exact hlalen
  · intro i hi
    rw [hm0]
    split_ifs with h
    · rw [getD_set_ne _ _ _ _ _ (by omega)]
      exact hlai i hi
    · exact hlai i hi
  · rw [hm0, ← hla1]
    split_ifs with h
    · exact getD_set_ne _ _ _ _ _ hk12.symm
    · rfl
  · rw [hm0, ← hla2]
    split_ifs with h
    · exact getD_set_eq _ _ _ _ (by rw [hlalen]; omega)
    · rfl

/-- Claim C6 counterexample: the chunk 97 13 98 has no trailing line
feed, yet the framer clears the carriage return at the second-to-last
position, queueing 97 0 98 instead of the untouched 97 13 98 the claim
prescribes. -/
theorem C6_counterexample :
    (telnet_handle_input 64 true true [97, 13, 98]).1 = some [97, 0, 98] ∧
    some ([97, 0, 98] : List Nat) ≠ some [97, 13, 98] := by
  decide

/-- Claim C6 witness: the amended characterization applied to the
chunk 104 105 13 10. -/
theorem C6_witness :
    (TELNET_MIN_MSG ≤ ([104, 105, 13, 10] : List Nat).length) ∧
    (([104, 105, 13, 10] : List Nat).length ≤ 64) ∧
    (([104, 105, 13, 10] : List Nat).getD 0 0 ≠ 255) ∧
    (([104, 105, 13, 10] : List Nat).getD
        (([104, 105, 13, 10] : List Nat).length - 1) 0 ≠ 0) ∧
    ((∃ m, telnet_handle_input 64 true true [104, 105, 13, 10]
            = (some m, true) ∧
        m.length = ([104, 105, 13, 10] : List Nat).length ∧
        (∀ i, i < ([104, 105, 13, 10] : List Nat).length - 2 →
          m.getD i 0 = ([104, 105, 13, 10] : List Nat).getD i 0) ∧
        m.getD (([104, 105, 13, 10] : List Nat).length - 1) 0
          = (if ([104, 105, 13, 10] : List Nat).getD
                  (([104, 105, 13, 10] : List Nat).length - 1) 0 = LF then 0
             else ([104, 105, 13, 10] : List Nat).getD
                  (([104, 105, 13, 10] : List Nat).length - 1) 0) ∧
        m.getD (([104, 105, 13, 10] : List Nat).length - 2) 0
          = (if ([104, 105, 13, 10] : List Nat).getD
                  (([104, 105, 13, 10] : List Nat).length - 2) 0 = CR then 0
             else ([104, 105, 13, 10] : List Nat).getD
                  (([104, 105, 13, 10] : List Nat).length - 2) 0)) ∧
     ((telnet_handle_input 64 true true [104, 105, 13, 10]).1
         = some [104, 105, 0, 0] ∧
      ([104, 105, 0, 0] : List Nat).takeWhile (fun b => b != 0)
         = [104, 105])) :=
  ⟨by decide, by decide, by decide, by decide,
   C6_amended 64 [104, 105, 13, 10] (by decide) (by decide) (by decide)
     (by decide)⟩

/-- Feeding the empty sequence changes nothing. -/
theorem console_out_seq_nil (N SIZE : Nat) (rb : line_buf_rb) :
    telnet_console_out_seq N SIZE rb [] = rb := rfl

/-- Feeding a concatenation is feeding the parts in order. -/
theorem console_out_seq_append (N SIZE : Nat) (rb : line_buf_rb)
    (a b : List Nat) :
    telnet_console_out_seq N SIZE rb (a ++ b)
      = telnet_console_out_seq N SIZE (telnet_console_out_seq N SIZE rb a)
          b := by
  unfold telnet_console_out_seq
  exact List.foldl_append _ _ _ _

/-- Feeding a byte then the rest. -/
theorem console_out_seq_cons (N SIZE : Nat) (rb : line_buf_rb)
    (c : Nat) (cs : List Nat) :
    telnet_console_out_seq N SIZE rb (c :: cs)
      = telnet_console_out_seq N SIZE (telnet_console_out N SIZE rb c).1
          cs := rfl

/-- A byte that is neither a line feed nor at the capacity boundary is
only appended to the current write slot. -/
theorem console_out_no_switch (N SIZE : Nat) (rb : line_buf_rb) (c : Nat)
    (hc : ¬(c = LF ∨ (telnet_rb_get_line_in rb ++ [c]).length = SIZE - 1)) :
    telnet_console_out N SIZE rb c
      = ({ rb with
            l_bufs := rb.l_bufs.set rb.line_in
                        (telnet_rb_get_line_in rb ++ [c]) },
         false) := by
  simp only [telnet_console_out]
  rw [if_neg hc]

/-- Feeding a line-feed-free run that leaves at least two bytes of
room in the slot never switches: the run is appended to the current
write slot and the indices are untouched. -/
theorem run_no_switch (N SIZE : Nat) (d : List Nat) :
    ∀ rb : line_buf_rb, LF ∉ d → rb.line_in < rb.l_bufs.length →
    (telnet_rb_get_line_in rb).length + d.length + 2 ≤ SIZE →
    telnet_console_out_seq N SIZE rb d
      = { rb with
            l_bufs := rb.l_bufs.set rb.line_in
                        (telnet_rb_get_line_in rb ++ d) } := by
  induction d with
  | nil =>
      intro rb hmem hin hsz
      simp only [console_out_seq_nil, List.append_nil, telnet_rb_get_line_in]
      rw [set_getD_self _ _ _ hin]
  | cons c d ih =>
      intro rb hmem hin hsz
      have hcLF : c ≠ LF := fun h => hmem (h ▸ List.mem_cons_self c d)
      simp only [List.length_cons] at hsz
      have hcond : ¬(c = LF ∨
          (telnet_rb_get_line_in rb ++ [c]).length = SIZE - 1) := by
        push_neg
        refine ⟨hcLF, ?_⟩
        rw [List.length_append, List.length_cons, List.length_nil]
        omega
      rw [console_out_seq_cons, console_out_no_switch N SIZE rb c hcond]
      have h3 : telnet_rb_get_line_in
          ({ rb with
              l_bufs := rb.l_bufs.set rb.line_in
                          (telnet_rb_get_line_in rb ++ [c]) })
            = telnet_rb_get_line_in rb ++ [c] := by
        simp only [telnet_rb_get_line_in]
        exact getD_set_eq _ _ _ _ hin
      rw [ih _ (fun h => hmem (List.mem_cons_of_mem c h))
        (by simpa [List.length_set] using hin)
        (by rw [h3, List.length_append, List.length_cons, List.length_nil]
            omega)]
      rw [h3]
      dsimp only
      rw [List.set_set, List.append_assoc, List.singleton_append]

/-- Feeding a short line-feed-free line followed by LF into an empty
current write slot stores the line with its CR LF terminator in that
slot and switches the ring. -/
theorem append_line_eq (N SIZE : Nat) (l : List Nat) (rb : line_buf_rb)
    (hl : LF ∉ l) (hin : rb.line_in < rb.l_bufs.length)
    (hslot : telnet_rb_get_line_in rb = [])
    (hsize : l.length + 2 ≤ SIZE) :
    telnet_console_out_seq N SIZE rb (l ++ [LF])
      = telnet_rb_switch N
          { rb with
              l_bufs := rb.l_bufs.set rb.line_in (l ++ [CR, LF]) } := by
  rw [console_out_seq_append,
    run_no_switch N SIZE l rb hl hin (by rw [hslot]; simpa using hsize),
    hslot]
  simp only [List.nil_append]
  rw [console_out_seq_cons, console_out_seq_nil]
  have hgl : telnet_rb_get_line_in
      ({ rb with l_bufs := rb.l_bufs.set rb.line_in l }) = l := by
    simp only [telnet_rb_get_line_in]
    exact getD_set_eq _ _ _ _ hin
  simp only [telnet_console_out, hgl]
  rw [if_pos (Or.inl trivial)]
  dsimp only
  rw [List.dropLast_concat, List.set_set, List.append_assoc,
    List.singleton_append]

/-- A freshly initialized ring has the shape of zero completed lines. -/
theorem rb_shape_init (N : Nat) : rbShape N [] (telnet_rb_init N) := by
  refine ⟨rfl, rfl, List.length_replicate N [], ?_⟩
  intro j
  show (List.replicate N ([] : List Nat)).getD j [] = _
  rw [getD_replicate_nil, if_neg (by simp)]

/-- Feeding a list of short, line-feed-free, LF-terminated lines into a
ring shaped by the lines already done extends the shape, as long as
the ring does not fill up (no wrap of the write index). -/
theorem rb_shape_fill (N SIZE : Nat) (ls : List (List Nat)) :
    ∀ (done : List (List Nat)) (rb : line_buf_rb),
    rbShape N done rb → (∀ l ∈ ls, lineValid SIZE l) →
    done.length + ls.length + 1 ≤ N →
    rbShape N (done ++ ls)
      (telnet_console_out_seq N SIZE rb
        ((ls.map (fun l => l ++ [LF])).flatten)) := by
  induction ls with
  | nil =>
      intro done rb hsh _ _
      simpa [console_out_seq_nil] using hsh
  | cons l rest ih =>
      intro done rb hsh hval hcount
      obtain ⟨hin, hout, hlen, hslots⟩ := hsh
      obtain ⟨hlLF, hlsz⟩ := hval l (List.mem_cons_self l rest)
      simp only [List.length_cons] at hcount
      have hslot0 : telnet_rb_get_line_in rb = [] := by
        simp only [telnet_rb_get_line_in]
        rw [hin, hslots done.length, if_neg (Nat.lt_irrefl done.length)]
      have hin2 : rb.line_in < rb.l_bufs.length := by
        rw [hlen, hin]
        omega
      rw [List.map_cons, List.flatten_cons, console_out_seq_append,
        append_line_eq N SIZE l rb hlLF hin2 hslot0 hlsz]
      have hsw := switch_no_wrap N
        { rb with l_bufs := rb.l_bufs.set rb.line_in (l ++ [CR, LF]) }
        (show rb.line_in + 1 ≠ N by rw [hin]; omega)
        (show rb.line_in + 1 ≠ rb.line_out by rw [hin, hout]; omega)
      rw [hsw]
      have hval2 : ∀ x ∈ rest, lineValid SIZE x :=
        fun x hx => hval x (List.mem_cons_of_mem l hx)
      have hnew : rbShape N (done ++ [l])
          { l_bufs := (rb.l_bufs.set rb.line_in (l ++ [CR, LF])).set
                        (rb.line_in + 1) [],
            line_in := rb.line_in + 1, line_out := rb.line_out } := by
        refine ⟨?_, ?_, ?_, ?_⟩
        · show rb.line_in + 1 = (done ++ [l]).length
          simp [hin]
        · exact hout
        · show ((rb.l_bufs.set rb.line_in (l ++ [CR, LF])).set
              (rb.line_in + 1) []).length = N
          rw [List.length_set, List.length_set]
          exact hlen
        · intro j
          show ((rb.l_bufs.set rb.line_in (l ++ [CR, LF])).set
              (rb.line_in + 1) []).getD j [] = _
          rw [hin]
          by_cases hj1 : done.length + 1 = j
          · subst hj1
            rw [getD_set_eq _ _ _ _ (by rw [List.length_set, hlen]; omega)]
            rw [if_neg (by
              rw [List.length_append, List.length_cons, List.length_nil]
              omega)]
          · rw [getD_set_ne _ _ _ _ _ hj1]
            by_cases hj2 : done.length = j
            · subst hj2
              rw [getD_set_eq _ _ _ _ (by rw [hlen]; omega)]
              rw [if_pos (by
                rw [List.length_append, List.length_cons, List.length_nil]
                omega)]
              rw [getD_append_ge _ _ _ _ (le_refl done.length)]
              simp [crlfLine]
            · rw [getD_set_ne _ _ _ _ _ hj2, hslots j]
              by_cases hj3 : j < done.length
              · rw [if_pos hj3, if_pos (by
                  rw [List.length_append, List.length_cons, List.length_nil]
                  omega)]
                rw [getD_append_lt _ _ _ _ hj3]
              · rw [if_neg hj3, if_neg (by
                  rw [List.length_append, List.length_cons, List.length_nil]
                  omega)]
      have hcount2 : (done ++ [l]).length + rest.length + 1 ≤ N := by
        rw [List.length_append, List.length_cons, List.length_nil]
        omega
      have hres := ih (done ++ [l]) _ hnew hval2 hcount2
      rw [List.append_assoc, List.singleton_append] at hres
      exact hres


/-- Claim C1 (amended): starting from a fresh ring of N slots and
appending N + 1 complete short lines through the producer entry point
with no drain, the switch after line N wraps the write index, zeroes
slot 0 (discarding the oldest line) and bumps the read index to 1; the
switch after line N + 1 zeroes slot 1 (discarding the second-oldest
line) and bumps the read index to 2.  Afterwards line_out = 2 points
at the third-oldest line, slot 1 is empty, slot 0 holds the newest
line, and slots 2 to N − 1 hold lines 3 to N: the two oldest of the
N + 1 lines are discarded, not only the oldest. -/
theorem C1_amended (N SIZE : Nat) (hN : 3 ≤ N)
    (ls : List (List Nat)) (a b : List Nat)
    (hlen : ls.length + 1 = N)
    (hvalid : ∀ l ∈ ls ++ [a, b], lineValid SIZE l) :
    (feedLines N SIZE (ls ++ [a, b])).line_in = 1 ∧
    (feedLines N SIZE (ls ++ [a, b])).line_out = 2 ∧
    (feedLines N SIZE (ls ++ [a, b])).l_bufs.getD 1 [] = [] ∧
    (feedLines N SIZE (ls ++ [a, b])).l_bufs.getD 0 []
      = crlfLine ((ls ++ [a, b]).getD N []) ∧
    (∀ j, 2 ≤ j → j < N →
      (feedLines N SIZE (ls ++ [a, b])).l_bufs.getD j []
        = crlfLine ((ls ++ [a, b]).getD j [])) := by
  have hvls : ∀ l ∈ ls, lineValid SIZE l := fun l hl =>
    hvalid l (List.mem_append_left _ hl)
  have hva : lineValid SIZE a :=
    hvalid a (List.mem_append_right _ (List.mem_cons_self a [b]))
  have hvb : lineValid SIZE b :=
    hvalid b (List.mem_append_right _
      (List.mem_cons_of_mem a (List.mem_cons_self b [])))
  have hsh := rb_shape_fill N SIZE ls [] (telnet_rb_init N)
    (rb_shape_init N) hvls (by simpa using Nat.le_of_eq hlen)
  rw [List.nil_append] at hsh
  obtain ⟨hin, hout, hlen2, hslots⟩ := hsh
  set s1 := telnet_console_out_seq N SIZE (telnet_rb_init N)
    ((ls.map (fun l => l ++ [LF])).flatten) with hs1
  have hfeed : feedLines N SIZE (ls ++ [a, b])
      = telnet_console_out_seq N SIZE
          (telnet_console_out_seq N SIZE s1 (a ++ [LF])) (b ++ [LF]) := by
    simp only [feedLines, List.map_append, List.flatten_append,
      List.map_cons, List.map_nil, List.flatten_cons, List.flatten_nil,
      List.append_nil, console_out_seq_append, hs1]
  have hslot1 : telnet_rb_get_line_in s1 = [] := by
    simp only [telnet_rb_get_line_in]
    rw [hin, hslots ls.length, if_neg (Nat.lt_irrefl ls.length)]
  have hin1 : s1.line_in < s1.l_bufs.length := by
    rw [hlen2, hin]
    omega
  have hstep1 : telnet_console_out_seq N SIZE s1 (a ++ [LF])
      = { l_bufs := (s1.l_bufs.set s1.line_in (a ++ [CR, LF])).set 0 [],
          line_in := 0, line_out := 1 } := by
    rw [append_line_eq N SIZE a s1 hva.1 hin1 hslot1 hva.2]
    rw [switch_wrap_overwrite N
      { l_bufs := s1.l_bufs.set s1.line_in (a ++ [CR, LF]),
        line_in := s1.line_in, line_out := s1.line_out }
      (show s1.line_in + 1 = N by rw [hin]; omega)
      (show s1.line_out = 0 from hout)
      (by omega)]
  rw [hfeed, hstep1]
  set s2 : line_buf_rb :=
    { l_bufs := (s1.l_bufs.set s1.line_in (a ++ [CR, LF])).set 0 [],
      line_in := 0, line_out := 1 } with hs2
  have hlenS2 : s2.l_bufs.length = N := by
    rw [hs2]
    dsimp only
    rw [List.length_set, List.length_set]
    exact hlen2
  have hzero : s2.line_in = 0 := by rw [hs2]
  have hone : s2.line_out = 1 := by rw [hs2]
  have hslot2 : telnet_rb_get_line_in s2 = [] := by
    simp only [telnet_rb_get_line_in, hs2]
    exact getD_set_eq _ _ _ _ (by rw [List.length_set, hlen2]; omega)
  have hin2b : s2.line_in < s2.l_bufs.length := by
    rw [hzero, hlenS2]
    omega
  have hstep2 : telnet_console_out_seq N SIZE s2 (b ++ [LF])
      = { l_bufs := (s2.l_bufs.set s2.line_in (b ++ [CR, LF])).set 1 [],
          line_in := 1, line_out := 2 } := by
    rw [append_line_eq N SIZE b s2 hvb.1 hin2b hslot2 hvb.2]
    rw [switch_no_wrap_overwrite N
      { l_bufs := s2.l_bufs.set s2.line_in (b ++ [CR, LF]),
        line_in := s2.line_in, line_out := s2.line_out }
      (show s2.line_in + 1 ≠ N by rw [hzero]; omega)
      (show s2.line_in + 1 = s2.line_out by rw [hzero, hone])
      (show s2.line_out + 1 ≠ N by rw [hone]; omega)]
  rw [hstep2]
  have hs2slots : ∀ j, 2 ≤ j → j < N →
      s2.l_bufs.getD j [] = crlfLine ((ls ++ [a, b]).getD j []) := by
    intro j hj2 hjN
    rw [hs2]
    dsimp only
    rw [getD_set_ne _ _ _ _ _ (show (0 : Nat) ≠ j by omega)]
    by_cases hje : j = N - 1
    · have hji : s1.line_in = j := by rw [hin]; omega
      rw [hji, getD_set_eq _ _ _ _ (by rw [hlen2]; omega)]
      rw [getD_append_ge _ _ _ _ (show ls.length ≤ j by omega)]
      rw [show j - ls.length = 0 by omega]
      rw [List.getD_cons_zero]
      rfl
    · rw [getD_set_ne _ _ _ _ _ (show s1.line_in ≠ j by rw [hin]; omega)]
      rw [hslots j, if_pos (show j < ls.length by omega)]
      rw [getD_append_lt _ _ _ _ (show j < ls.length by omega)]
  refine ⟨rfl, rfl, ?_, ?_, ?_⟩
  · show ((s2.l_bufs.set s2.line_in (b ++ [CR, LF])).set 1 []).getD 1 []
      = []
    exact getD_set_eq _ _ _ _ (by rw [List.length_set, hlenS2]; omega)
  · show ((s2.l_bufs.set s2.line_in (b ++ [CR, LF])).set 1 []).getD 0 []
      = crlfLine ((ls ++ [a, b]).getD N [])
    rw [getD_set_ne _ _ _ _ _ (show (1 : Nat) ≠ 0 by omega)]
    rw [hzero, getD_set_eq _ _ _ _ (by rw [hlenS2]; omega)]
    rw [getD_append_ge _ _ _ _ (show ls.length ≤ N by omega)]
    rw [show N - ls.length = 1 by omega]
    rw [List.getD_cons_succ, List.getD_cons_zero]
    rfl
  · intro j hj2 hjN
    show ((s2.l_bufs.set s2.line_in (b ++ [CR, LF])).set 1 []).getD j []
      = crlfLine ((ls ++ [a, b]).getD j [])
    rw [getD_set_ne _ _ _ _ _ (show (1 : Nat) ≠ j by omega)]
    rw [hzero, getD_set_ne _ _ _ _ _ (show (0 : Nat) ≠ j by omega)]
    exact hs2slots j hj2 hjN

/-- Claim C1 counterexample: five single-byte complete lines fed into
a fresh four-slot ring.  The claim predicts that only the oldest line
is discarded and that the read index points at the second-oldest line
(65 is lost and line_out points at the slot holding line 66); in fact
the slot that held line 66 has been zeroed as well and line_out = 2
points at line 67, the third-oldest. -/
theorem C1_counterexample :
    (feedLines 4 8 [[65], [66], [67], [68], [69]]).l_bufs.getD
        (feedLines 4 8 [[65], [66], [67], [68], [69]]).line_out []
      ≠ crlfLine [66] ∧
    (feedLines 4 8 [[65], [66], [67], [68], [69]]).l_bufs.getD 1 [] = [] ∧
    (feedLines 4 8 [[65], [66], [67], [68], [69]]).line_out = 2 := by
  decide

/-- Claim C1 witness: the amended statement at N = 4, capacity 8, with
the five lines 65, 66, 67, 68, 69. -/
theorem C1_witness :
    ((3 : Nat) ≤ 4) ∧
    (([[65], [66], [67]] : List (List Nat)).length + 1 = 4) ∧
    (∀ l ∈ ([[65], [66], [67]] : List (List Nat)) ++ [[68], [69]],
      lineValid 8 l) ∧
    ((feedLines 4 8 ([[65], [66], [67]] ++ [[68], [69]])).line_in = 1 ∧
     (feedLines 4 8 ([[65], [66], [67]] ++ [[68], [69]])).line_out = 2 ∧
     (feedLines 4 8 ([[65], [66], [67]] ++ [[68], [69]])).l_bufs.getD 1 []
       = [] ∧
     (feedLines 4 8 ([[65], [66], [67]] ++ [[68], [69]])).l_bufs.getD 0 []
       = crlfLine ((([[65], [66], [67]] : List (List Nat)) ++
           [[68], [69]]).getD 4 []) ∧
     (∀ j, 2 ≤ j → j < 4 →
       (feedLines 4 8 ([[65], [66], [67]] ++ [[68], [69]])).l_bufs.getD j []
         = crlfLine ((([[65], [66], [67]] : List (List Nat)) ++
             [[68], [69]]).getD j []))) :=
  ⟨by decide, by decide,
   fun l hl => by
     fin_cases hl <;> exact ⟨by decide, by decide⟩,
   C1_amended 4 8 (by decide) [[65], [66], [67]] [68] [69] (by decide)
     (fun l hl => by
       fin_cases hl <;> exact ⟨by decide, by decide⟩)⟩

/-- telnet_send when the slot at the read index is empty: nothing is
flushed, the read index still advances. -/
theorem send_skip (N : Nat) (rb : line_buf_rb)
    (h : rb.l_bufs.getD rb.line_out [] = []) :
    telnet_send N rb = (none, (telnet_rb_get_line_out N rb).2) := by
  have hv := get_line_out_value N rb
  rw [if_pos h] at hv
  unfold telnet_send
  rcases hgo : telnet_rb_get_line_out N rb with ⟨r, rb2⟩
  rw [hgo] at hv
  cases r with
  | none => rfl
  | some i => simp at hv

/-- telnet_send when the slot at the read index is nonempty: its bytes
are handed to the sender, the read index advances, and the slot is
reset. -/
theorem send_take (N : Nat) (rb : line_buf_rb)
    (h : rb.l_bufs.getD rb.line_out [] ≠ []) :
    telnet_send N rb
      = (some (rb.l_bufs.getD rb.line_out []),
         { rb with
             line_out := if rb.line_out + 1 = N then 0
                         else rb.line_out + 1,
             l_bufs := rb.l_bufs.set rb.line_out [] }) := by
  have hv := get_line_out_value N rb
  rw [if_neg h] at hv
  have hs := get_line_out_state N rb
  unfold telnet_send
  rcases hgo : telnet_rb_get_line_out N rb with ⟨r, rb2⟩
  rw [hgo] at hv hs
  cases r with
  | none => simp at hv
  | some i =>
      have hi : i = rb.line_out := by simpa using hv
      subst hi
      have hrb2 : rb2 = { rb with
          line_out := if rb.line_out + 1 = N then 0
                      else rb.line_out + 1 } := hs
      subst hrb2
      rfl

/-- Draining a ring whose slots from the read index on hold the
pending completed lines, followed by an empty slot, collects exactly
those lines in order, as long as the region does not wrap. -/
theorem drain_collects (N : Nat) (pending : List (List Nat)) :
    ∀ (rb : line_buf_rb) (fuel : Nat),
    rb.l_bufs.length = N →
    rb.line_out + pending.length + 1 ≤ N →
    (∀ i, i < pending.length →
      rb.l_bufs.getD (rb.line_out + i) [] = crlfLine (pending.getD i [])) →
    rb.l_bufs.getD (rb.line_out + pending.length) [] = [] →
    pending.length < fuel →
    (telnet_drain N fuel rb).1 = pending.map crlfLine := by
  induction pending with
  | nil =>
      intro rb fuel hlen hcount hslots hterm hfuel
      cases fuel with
      | zero => omega
      | succ f =>
          simp only [telnet_drain]
          rw [send_skip N rb (by simpa using hterm)]
          rfl
  | cons p ps ih =>
      intro rb fuel hlen hcount hslots hterm hfuel
      simp only [List.length_cons] at hcount hfuel
      cases fuel with
      | zero => omega
      | succ f =>
          have hp0 : rb.l_bufs.getD rb.line_out [] = crlfLine p := by
            have h := hslots 0 (by simp)
            simpa using h
          have hpne : rb.l_bufs.getD rb.line_out [] ≠ [] := by
            rw [hp0]
            simp [crlfLine]
          have hnw : rb.line_out + 1 ≠ N := by omega
          simp only [telnet_drain]
          rw [send_take N rb hpne, if_neg hnw]
          have hih := ih
            { rb with line_out := rb.line_out + 1,
                      l_bufs := rb.l_bufs.set rb.line_out [] } f
            (by simp only [List.length_set]; exact hlen)
            (by simp only []; omega)
            (by
              intro i hi
              show (rb.l_bufs.set rb.line_out []).getD
                  (rb.line_out + 1 + i) [] = crlfLine (ps.getD i [])
              rw [getD_set_ne _ _ _ _ _ (by omega)]
              have h := hslots (i + 1) (by simp only [List.length_cons]; omega)
              rw [show rb.line_out + 1 + i = rb.line_out + (i + 1) by omega]
              rw [List.getD_cons_succ] at h
              exact h)
            (by
              show (rb.l_bufs.set rb.line_out []).getD
                  (rb.line_out + 1 + ps.length) [] = []
              rw [getD_set_ne _ _ _ _ _ (by omega)]
              rw [show rb.line_out + 1 + ps.length
                    = rb.line_out + (ps.length + 1) by omega]
              simpa using hterm)
            (by omega)
          simp only [List.map_cons]
          rw [← hp0, ← hih]

/-- lfToCrlf distributes over concatenation. -/
theorem lfToCrlf_append (a b : List Nat) :
    lfToCrlf (a ++ b) = lfToCrlf a ++ lfToCrlf b := by
  induction a with
  | nil => rfl
  | cons c cs ih => simp [lfToCrlf, ih, List.append_assoc]

/-- lfToCrlf is the identity on line-feed-free byte sequences. -/
theorem lfToCrlf_no_lf (l : List Nat) (h : LF ∉ l) : lfToCrlf l = l := by
  induction l with
  | nil => rfl
  | cons c cs ih =>
      have hc : c ≠ LF := fun hh => h (hh ▸ List.mem_cons_self c cs)
      simp [lfToCrlf, if_neg hc,
        ih (fun hh => h (List.mem_cons_of_mem c hh))]

/-- Concatenating the CR LF terminated lines equals applying the LF to
CR LF substitution to the concatenation of the LF terminated lines. -/
theorem flatten_map_crlf (ls : List (List Nat)) (h : ∀ l ∈ ls, LF ∉ l) :
    (ls.map crlfLine).flatten
      = lfToCrlf ((ls.map (fun l => l ++ [LF])).flatten) := by
  induction ls with
  | nil => rfl
  | cons l rest ih =>
      simp only [List.map_cons, List.flatten_cons]
      rw [lfToCrlf_append, lfToCrlf_append,
        lfToCrlf_no_lf l (h l (List.mem_cons_self l rest)),
        ih (fun x hx => h x (List.mem_cons_of_mem l hx))]
      simp [crlfLine, lfToCrlf, List.append_assoc]

/-- Claim C4 (amended): for any input made of LF-terminated lines that
are short enough never to reach the capacity-boundary switch (data
length at most capacity − 2) and few enough that no overwrite occurs
(at most N − 1 lines), feeding the bytes one at a time through the
producer entry point and then draining yields flushed slot contents
whose concatenation equals the input with every line feed replaced by
the carriage-return line-feed pair. -/
theorem C4_amended (N SIZE : Nat) (ls : List (List Nat))
    (hvalid : ∀ l ∈ ls, lineValid SIZE l)
    (hcount : ls.length + 1 ≤ N) :
    (telnet_drain N N (feedLines N SIZE ls)).1.flatten
      = lfToCrlf ((ls.map (fun l => l ++ [LF])).flatten) := by
  have hsh := rb_shape_fill N SIZE ls [] (telnet_rb_init N)
    (rb_shape_init N) hvalid (by simpa using hcount)
  rw [List.nil_append] at hsh
  obtain ⟨hin, hout, hlen, hslots⟩ := hsh
  have hdr := drain_collects N ls
    (telnet_console_out_seq N SIZE (telnet_rb_init N)
      ((ls.map (fun l => l ++ [LF])).flatten)) N
    hlen
    (by rw [hout]; omega)
    (by
      intro i hi
      rw [hout, Nat.zero_add, hslots i, if_pos hi])
    (by
      rw [hout, Nat.zero_add, hslots ls.length,
        if_neg (Nat.lt_irrefl ls.length)])
    (by omega)
  show (telnet_drain N N (telnet_console_out_seq N SIZE (telnet_rb_init N)
      ((ls.map (fun l => l ++ [LF])).flatten))).1.flatten = _
  rw [hdr, flatten_map_crlf ls (fun l hl => (hvalid l hl).1)]

/-- Claim C4 counterexample: the eight bytes 97 to 103 followed by LF,
fed with capacity 8 into a four-slot ring.  No overwrite occurs (the
read index is still 0 after feeding), yet the flushed contents
concatenate to 97 98 99 100 101 102 13 10 13 10 — the byte 103 was
destroyed by the capacity-boundary switch — while the input with LF
replaced by CR LF is 97 98 99 100 101 102 103 13 10. -/
theorem C4_counterexample :
    (telnet_console_out_seq 4 8 (telnet_rb_init 4)
        [97, 98, 99, 100, 101, 102, 103, 10]).line_out = 0 ∧
    (telnet_drain 4 4 (telnet_console_out_seq 4 8 (telnet_rb_init 4)
        [97, 98, 99, 100, 101, 102, 103, 10])).1.flatten
      ≠ lfToCrlf [97, 98, 99, 100, 101, 102, 103, 10] := by
  decide

/-- Claim C4 witness: the amended statement for the two lines 104 and
105 in a four-slot ring of capacity 8. -/
theorem C4_witness :
    (∀ l ∈ ([[104], [105]] : List (List Nat)), lineValid 8 l) ∧
    (([[104], [105]] : List (List Nat)).length + 1 ≤ 4) ∧
    (telnet_drain 4 4 (feedLines 4 8 [[104], [105]])).1.flatten
      = lfToCrlf ((([[104], [105]] : List (List Nat)).map
          (fun l => l ++ [LF])).flatten) :=
  ⟨fun l hl => by fin_cases hl <;> exact ⟨by decide, by decide⟩,
   by decide,
   C4_amended 4 8 [[104], [105]]
     (fun l hl => by fin_cases hl <;> exact ⟨by decide, by decide⟩)
     (by decide)⟩
